import Mathlib

/-!
# gosiege: the load-generation engine (`siege/siege.go`)

A shallow embedding of the engine of `siege.go` and the properties of its
request catalog, stats aggregator, ramp controller, worker and connection pool.

Conventions of the embedding.

* Go `int` fields (`Repeat`, `Duration`, `MaxConcurrent`, the counters) are
  integers.  The counters move by one per processed event, so they stay far
  from the 64-bit bounds in any run; the one product computed on a configured
  value, `time.Duration(Duration) * time.Second`, is reduced to its 64-bit
  two's-complement value (`wrapInt64`).
* `[]*SiegeUrl` is a list of records: the entries of a parsed configuration
  are non-nil pointers.
* `map[string]string` is an association list; its order stands for the order
  in which `range` happens to visit the map.
* `float64` is an abstract type `F` with the handful of operations the engine
  uses (`Float64Ops`); nothing is assumed about them.
* The standard library calls (`rand.Shuffle`, `http.NewRequest`,
  `Header.Set`) are described by their documented behaviour, and what is
  environment (the random draws, the server's answer, the clock) is an
  explicit argument.
-/

namespace GoSiege

/-! ## Data model -/

/-- The Go struct `SiegeUrl`. -/
structure SiegeUrl where
  Url : String
  Method : String
  Headers : List (String × String)
  Body : String
  Repeat : Int
deriving DecidableEq, Repr

/-- The Go struct `SiegeConfig`. -/
structure SiegeConfig where
  Urls : List SiegeUrl
  Duration : Int
  MaxConcurrent : Int
  MaxRPS : Int
deriving DecidableEq, Repr

/-! ## Request catalog: `expandUrlList` -/

/-- The inner loop `for range url.Repeat { expandedUrls = append(expandedUrls, &SiegeUrl{...}) }`,
with the number of iterations still to run as the recursion argument. -/
def appendCopies (expandedUrls : List SiegeUrl) (url : SiegeUrl) : Nat → List SiegeUrl
  | 0 => expandedUrls
  | n + 1 =>
    appendCopies
      (expandedUrls ++
        [{ Url := url.Url, Method := url.Method, Headers := url.Headers,
           Body := url.Body, Repeat := 1 }])
      url n

/-- The outer loop `for _, url := range s.Config.Urls`.  A `for range n` over a
non-positive `n` runs no iteration, hence `Int.toNat`. -/
def expandLoop (urls : List SiegeUrl) : List SiegeUrl :=
  urls.foldl (fun expandedUrls url => appendCopies expandedUrls url url.Repeat.toNat) []

/-- The closure handed to `rand.Shuffle`:
`expandedUrls[i], expandedUrls[j] = expandedUrls[j], expandedUrls[i]`.
An index outside the slice is a run-time panic (`none`). -/
def swap {α : Type} (xs : List α) (i j : Nat) : Option (List α) :=
  match xs.get? i, xs.get? j with
  | some a, some b => some ((xs.set i b).set j a)
  | _, _ => none

/-- The loop of `rand.Shuffle(n, swap)`: `for i := n - 1; i > 0; i-- { j := Intn(i + 1); swap(i, j) }`.
The first argument is the loop variable `i`; `draw i` is the raw random number
used at position `i`, brought into `[0, i]` as `Intn (i + 1)` does. -/
def shuffleLoop {α : Type} (draw : Nat → Nat) : Nat → List α → Option (List α)
  | 0, xs => some xs
  | i + 1, xs =>
    match swap xs (i + 1) (draw (i + 1) % (i + 2)) with
    | some ys => shuffleLoop draw i ys
    | none => none

/-- The call `rand.Shuffle(len(expandedUrls), func(i, j int) {...})`. -/
def Shuffle {α : Type} (draw : Nat → Nat) (xs : List α) : Option (List α) :=
  shuffleLoop draw (xs.length - 1) xs

/-- The method `expandUrlList`: the value stored in `s.ExpandedUrls` and returned,
or `none` if the shuffle panics. -/
def expandUrlList (config : SiegeConfig) (draw : Nat → Nat) : Option (List SiegeUrl) :=
  Shuffle draw (expandLoop config.Urls)

/-- The in-order expansion as the specification words it: for each template, in
input order, `Repeat` copies of it with `Repeat` set to `1`. -/
def inOrderExpansion (urls : List SiegeUrl) : List SiegeUrl :=
  urls.flatMap (fun t => List.replicate t.Repeat.toNat { t with Repeat := 1 })

/-! ## Run counters and the stats aggregator -/

/-- The operations on `float64` values that the engine performs: the constant
`0`, `x++`, `x / y`, `x < y` and the conversion `float64(n)`. -/
structure Float64Ops (F : Type) where
  zero : F
  inc : F → F
  div : F → F → F
  lt : F → F → Bool
  ofInt : Int → F

/-- The Go struct `Siege`, data fields only.  The context, the client pool, the
wait group and the channels are fields of `System` below. -/
structure Siege (F : Type) where
  Config : SiegeConfig
  ExpandedUrls : List SiegeUrl
  CurrentRPS : F
  CurrentRequests : F
  CurrentConcurrent : Int
  MaxConcurrent : Int
  MaxRPS : F
  connFailed : Int
  resp2xx : Int
  resp5xx : Int
  resp4xx : Int

/-- The constant `INC`. -/
def INC : Int := 1

/-- The constant `DEC`. -/
def DEC : Int := 2

/-- The constant `DISCONNECTED`. -/
def DISCONNECTED : Int := 3

/-- The method `incrementCurrentRequests`; `elapsed` is the value of
`time.Since(s.startTime).Seconds()` read by the call.  Each guarded assignment
`if c { s.X = e }` is the update of `X` to `if c then e else s.X`, and
`s.CurrentRPS > s.MaxRPS` is `s.MaxRPS < s.CurrentRPS`. -/
def incrementCurrentRequests {F : Type} (ops : Float64Ops F) (elapsed : F) (s : Siege F) :
    Siege F :=
  let s := { s with CurrentRequests := ops.inc s.CurrentRequests }
  let s := { s with CurrentRPS := ops.div s.CurrentRequests elapsed }
  let s := { s with MaxRPS := if ops.lt s.MaxRPS s.CurrentRPS then s.CurrentRPS else s.MaxRPS }
  let s := { s with CurrentConcurrent := s.CurrentConcurrent + 1 }
  { s with
    MaxConcurrent := if s.CurrentConcurrent > s.MaxConcurrent then s.CurrentConcurrent
                     else s.MaxConcurrent }

/-- The method `decrementCurrentConcurrent`. -/
def decrementCurrentConcurrent {F : Type} (s : Siege F) : Siege F :=
  { s with CurrentConcurrent := s.CurrentConcurrent - 1 }

/-- The body of the aggregator goroutine of `Start` for one value `v` received
from `counterChan`: the `switch v` run under `counterMtx`. -/
def handleValue {F : Type} (ops : Float64Ops F) (s : Siege F) (v : Int) (elapsed : F) :
    Siege F :=
  if v = INC then incrementCurrentRequests ops elapsed s
  else if v = DEC then decrementCurrentConcurrent s
  else if v = DISCONNECTED then { s with connFailed := s.connFailed + 1 }
  else if v ≥ 200 ∧ v < 300 then { s with resp2xx := s.resp2xx + 1 }
  else if v ≥ 400 ∧ v < 500 then { s with resp4xx := s.resp4xx + 1 }
  else if v ≥ 500 then { s with resp5xx := s.resp5xx + 1 }
  else s

/-- The aggregator loop over a finite list of received values, each paired
with the clock reading taken while it is processed. -/
def processAll {F : Type} (ops : Float64Ops F) (s : Siege F) (events : List (Int × F)) :
    Siege F :=
  events.foldl (fun s e => handleValue ops s e.1 e.2) s

/-- The `Siege` literal of `NewSiege`: `CurrentRequests` and `CurrentConcurrent`
are set to `0`, every other counter has Go's zero value. -/
def newCounters {F : Type} (ops : Float64Ops F) (config : SiegeConfig)
    (expanded : List SiegeUrl) : Siege F :=
  { Config := config, ExpandedUrls := expanded, CurrentRPS := ops.zero,
    CurrentRequests := ops.zero, CurrentConcurrent := 0, MaxConcurrent := 0,
    MaxRPS := ops.zero, connFailed := 0, resp2xx := 0, resp5xx := 0, resp4xx := 0 }

/-- The method `GetStats`. -/
def GetStats {F : Type} (s : Siege F) : F × F × Int × Int × Int × Int × Int :=
  (s.MaxRPS, s.CurrentRequests, s.MaxConcurrent, s.resp2xx, s.resp4xx, s.resp5xx, s.connFailed)

/-! ## Ramp controller -/

/-- The value of a 64-bit signed integer computation that wraps around. -/
def wrapInt64 (x : Int) : Int :=
  (x + 9223372036854775808) % 18446744073709551616 - 9223372036854775808

/-- What one tick of the ramp controller does: how many `go s.Run(counterChan)`
it issues, and whether it calls `s.cancelFunc()` and returns. -/
structure TickOutcome where
  launched : Nat
  cancelled : Bool
deriving DecidableEq, Repr

/-- The `case <-increaseTicker.C:` branch of the controller loop of `Start`.
`elapsed` is `time.Since(s.startTime)` in nanoseconds; the bound it is compared
with is `time.Duration(s.Config.Duration) * time.Second`, an `int64` product. -/
def rampTick {F : Type} (ops : Float64Ops F) (config : SiegeConfig) (elapsed : Int)
    (currentRPS : F) (currentConcurrents : Int) : TickOutcome :=
  let timeOver : Bool := decide (elapsed > wrapInt64 (config.Duration * 1000000000))
  let launched : Nat :=
    if !timeOver then
      if ops.lt currentRPS (ops.ofInt config.MaxRPS) && decide (currentConcurrents < config.MaxConcurrent)
      then 10 else 0
    else 0
  { launched := launched, cancelled := timeOver }

/-- The condition `timeOver` as the specification words it: the elapsed time
exceeds `Duration` seconds. -/
def timeOverSpec (config : SiegeConfig) (elapsed : Int) : Prop :=
  elapsed > config.Duration * 1000000000

instance (config : SiegeConfig) (elapsed : Int) : Decidable (timeOverSpec config elapsed) := by
  unfold timeOverSpec
  infer_instance

/-! ## Building the request in `makeCall` -/

/-- The field `Body` of an `http.Request`: absent (`nil`), `http.NoBody`, or a
reader over some content. -/
inductive Body where
  | nil
  | NoBody
  | reader (content : String)
deriving DecidableEq, Repr

/-- The bytes a body yields when it is sent. -/
def Body.content : Body → String
  | .nil => ""
  | .NoBody => ""
  | .reader c => c

/-- The fields of an `http.Request` that `makeCall` sets. -/
structure Request where
  Method : String
  URL : String
  Header : List (String × String)
  Body : Body
deriving DecidableEq, Repr

/-- What the embedding leaves open about `net/http`: which methods
`http.NewRequest` accepts, how it parses a URL (`none` is a parse error) and
how `Header.Set` canonicalises a key. -/
structure NetHttp where
  validMethod : String → Bool
  parseURL : String → Option String
  canonicalKey : String → String

/-- The call `http.NewRequest(method, url, body)`: an empty method means `GET`,
an invalid method or an unparsable URL is an error (`none`), and the request
starts with no header and the given body. -/
def NewRequest (lib : NetHttp) (method url : String) (body : Body) : Option Request :=
  let method := if method = "" then "GET" else method
  if lib.validMethod method then
    match lib.parseURL url with
    | some u => some { Method := method, URL := u, Header := [], Body := body }
    | none => none
  else none

/-- The call `req.Header.Set(key, value)`: the entry under the canonical key is
replaced. -/
def headerSet (lib : NetHttp) (req : Request) (key value : String) : Request :=
  { req with
    Header := (lib.canonicalKey key, value) ::
      req.Header.filter (fun p => p.1 ≠ lib.canonicalKey key) }

/-- The part of `makeCall` from `http.NewRequest(url.Method, url.Url, nil)` up to
the request handed to `client.Do`: `none` is the `return nil, err` branch. -/
def makeCallRequest (lib : NetHttp) (url : SiegeUrl) : Option Request :=
  match NewRequest lib url.Method url.Url Body.nil with
  | none => none
  | some req =>
    let req := url.Headers.foldl (fun req kv => headerSet lib req kv.1 kv.2) req
    if url.Method = "POST" ∨ url.Method = "PUT" then some { req with Body := Body.NoBody }
    else some req

/-! ## Workers, connection pool and the engine as a transition system -/

/-- What `makeCall` returns to `Run`: a response with its status code, or an
error. -/
inductive Result where
  | resp (StatusCode : Int)
  | err
deriving DecidableEq, Repr

/-- The control point of a goroutine running `Run`; `k` is the index in
`s.ExpandedUrls` of the element the `range` loop is at. -/
inductive Pc where
  /-- At the head of `for { select { case <-s.ctx.Done(): ... default: ... } }`. -/
  | top
  /-- In `makeCall`, at `s.getClient()`. -/
  | getClient (k : Nat)
  /-- Holding a client, at `stats <- INC`. -/
  | sendInc (k : Nat)
  /-- At `http.NewRequest` ... `client.Do(req)`. -/
  | request (k : Nat)
  /-- The result is fixed; at the deferred `stats <- DEC`. -/
  | sendDec (k : Nat) (r : Result)
  /-- At the deferred `s.returnClient(client)`. -/
  | returnClient (k : Nat) (r : Result)
  /-- Back in `Run` with the result, at `if err != nil`. -/
  | handle (k : Nat) (r : Result)
  /-- At `stats <- DISCONNECTED` or `stats <- resp.StatusCode`. -/
  | sendStat (k : Nat) (v : Int)
  /-- After `return`. -/
  | exited
deriving DecidableEq, Repr

/-- The engine while `Start` runs. -/
structure System (F : Type) where
  /-- The counters. -/
  siege : Siege F
  /-- Whether `s.ctx.Done()` is closed. -/
  cancelled : Bool
  /-- The number of clients in the buffer of `s.clientPool`. -/
  clientPool : Nat
  /-- The buffer of `counterChan`, oldest value first. -/
  counterChan : List Int
  /-- Whether `close(counterChan)` has run. -/
  chanClosed : Bool
  /-- Whether the aggregator has closed `done` and returned. -/
  aggregatorDone : Bool
  /-- Whether the ramp controller goroutine is in its loop. -/
  controllerRunning : Bool
  /-- The goroutines started by `go s.Run(counterChan)`. -/
  workers : List Pc
  /-- History: the values the aggregator has received, oldest first. -/
  received : List Int

/-- The function `NewSiege` followed by the set-up of `Start` (the aggregator
and the controller goroutines are started).  `make(chan *http.Client, n)` panics
for a negative `n` (`none`). -/
def NewSiege {F : Type} (ops : Float64Ops F) (config : SiegeConfig) (draw : Nat → Nat) :
    Option (System F) :=
  if config.MaxConcurrent < 0 then none
  else
    match expandUrlList config draw with
    | none => none
    | some expanded =>
      some { siege := newCounters ops config expanded, cancelled := false,
             clientPool := config.MaxConcurrent.toNat, counterChan := [],
             chanClosed := false, aggregatorDone := false, controllerRunning := true,
             workers := [], received := [] }

/-- A send `stats <- v` on `counterChan` (capacity 500): it blocks (`none`)
while the buffer is full. -/
def send {F : Type} (σ : System F) (v : Int) : Option (System F) :=
  if σ.counterChan.length < 500 ∧ σ.chanClosed = false then
    some { σ with counterChan := σ.counterChan ++ [v] }
  else none

/-- Move worker `w` to control point `pc`. -/
def setPc {F : Type} (σ : System F) (w : Nat) (pc : Pc) : System F :=
  { σ with workers := σ.workers.set w pc }

/-- The control point after the body of the `range` loop for element `k`. -/
def nextPc {F : Type} (σ : System F) (k : Nat) : Pc :=
  if k + 1 < σ.siege.ExpandedUrls.length then Pc.getClient (k + 1) else Pc.top

/-- The steps of the system. -/
inductive Action (F : Type) where
  /-- Someone (the signal handler of `main`) calls `cancel()`. -/
  | cancel
  /-- The ticker of the ramp controller fires, `elapsed` nanoseconds after the start. -/
  | tick (elapsed : Int)
  /-- The ramp controller takes `case <-s.ctx.Done()` and returns. -/
  | controllerExit
  /-- The aggregator receives the next value; `elapsed` is its clock reading. -/
  | recv (elapsed : F)
  /-- `Start` gets past `s.waitGroup.Wait()` and closes `counterChan`. -/
  | closeChan
  /-- Worker `w`: `getClient` takes a client from the pool. -/
  | acquire (w : Nat)
  /-- Worker `w`: `getClient` takes `case <-s.ctx.Done()`. -/
  | giveUp (w : Nat)
  /-- Worker `w`: `client.Do(req)` returns `r`. -/
  | reply (w : Nat) (r : Result)
  /-- Worker `w` executes its next statement (any other control point). -/
  | step (w : Nat)

/-- One statement of worker `w` (the goroutine `Run`, with `makeCall` inlined);
`none` when the move is not the one the worker can make in this state. -/
def workerStep {F : Type} (lib : NetHttp) (σ : System F) (w : Nat) (a : Action F) :
    Option (System F) :=
  match σ.workers.get? w, a with
  | some Pc.top, Action.step _ =>
    if σ.cancelled then some (setPc σ w Pc.exited)
    else if 0 < σ.siege.ExpandedUrls.length then some (setPc σ w (Pc.getClient 0))
    else some σ
  | some (Pc.getClient k), Action.acquire _ =>
    if 0 < σ.clientPool then
      some { setPc σ w (Pc.sendInc k) with clientPool := σ.clientPool - 1 }
    else none
  | some (Pc.getClient _), Action.giveUp _ =>
    -- `makeCall` returns `context.Canceled` before any `defer`, and `Run`
    -- returns at its `case <-s.ctx.Done()`
    if σ.cancelled then some (setPc σ w Pc.exited) else none
  | some (Pc.sendInc k), Action.step _ =>
    (send σ INC).map (fun σ => setPc σ w (Pc.request k))
  | some (Pc.request k), Action.step _ =>
    match σ.siege.ExpandedUrls.get? k with
    | some url =>
      match makeCallRequest lib url with
      | none => some (setPc σ w (Pc.sendDec k Result.err))
      | some _ => none
    | none => none
  | some (Pc.request k), Action.reply _ r =>
    match σ.siege.ExpandedUrls.get? k with
    | some url =>
      match makeCallRequest lib url with
      | none => none
      | some _ => some (setPc σ w (Pc.sendDec k r))
    | none => none
  | some (Pc.sendDec k r), Action.step _ =>
    (send σ DEC).map (fun σ => setPc σ w (Pc.returnClient k r))
  | some (Pc.returnClient k r), Action.step _ =>
    if σ.clientPool < σ.siege.Config.MaxConcurrent.toNat then
      some { setPc σ w (Pc.handle k r) with clientPool := σ.clientPool + 1 }
    else none
  | some (Pc.handle k Result.err), Action.step _ =>
    if σ.cancelled then some (setPc σ w Pc.exited)
    else some (setPc σ w (Pc.sendStat k DISCONNECTED))
  | some (Pc.handle k (Result.resp code)), Action.step _ =>
    some (setPc σ w (Pc.sendStat k code))
  | some (Pc.sendStat k v), Action.step _ =>
    (send σ v).map (fun σ => setPc σ w (nextPc σ k))
  | _, _ => none

/-- One step of the system; `none` when the action is not enabled. -/
def step {F : Type} (ops : Float64Ops F) (lib : NetHttp) (σ : System F) (a : Action F) :
    Option (System F) :=
  match a with
  | Action.cancel => some { σ with cancelled := true }
  | Action.tick elapsed =>
    if σ.controllerRunning then
      let out := rampTick ops σ.siege.Config elapsed σ.siege.CurrentRPS σ.siege.CurrentConcurrent
      some { σ with
        workers := σ.workers ++ List.replicate out.launched Pc.top
        cancelled := σ.cancelled || out.cancelled
        controllerRunning := !out.cancelled }
    else none
  | Action.controllerExit =>
    if σ.controllerRunning ∧ σ.cancelled then some { σ with controllerRunning := false }
    else none
  | Action.recv elapsed =>
    if σ.aggregatorDone then none
    else
      match σ.counterChan with
      | v :: rest =>
        some { σ with
          siege := handleValue ops σ.siege v elapsed
          counterChan := rest
          received := σ.received ++ [v] }
      | [] => if σ.chanClosed then some { σ with aggregatorDone := true } else none
  | Action.closeChan =>
    if σ.controllerRunning = false ∧ (∀ pc ∈ σ.workers, pc = Pc.exited) ∧ σ.chanClosed = false
    then some { σ with chanClosed := true }
    else none
  | Action.acquire w => workerStep lib σ w a
  | Action.giveUp w => workerStep lib σ w a
  | Action.reply w _ => workerStep lib σ w a
  | Action.step w => workerStep lib σ w a

/-- Run a list of actions from a state; `none` as soon as one is not enabled. -/
def run {F : Type} (ops : Float64Ops F) (lib : NetHttp) (σ : System F) :
    List (Action F) → Option (System F)
  | [] => some σ
  | a :: as =>
    match step ops lib σ a with
    | some σ' => run ops lib σ' as
    | none => none

/-- The states the engine can be in: those reached from `NewSiege` by some list
of actions. -/
def Reachable {F : Type} (ops : Float64Ops F) (lib : NetHttp) (config : SiegeConfig)
    (σ : System F) : Prop :=
  ∃ (draw : Nat → Nat) (σ₀ : System F) (as : List (Action F)),
    NewSiege ops config draw = some σ₀ ∧ run ops lib σ₀ as = some σ

/-- Whether a worker at this control point holds a client: between a
successful `getClient` and its `returnClient`. -/
def isBorrowed : Pc → Bool
  | Pc.sendInc _ => true
  | Pc.request _ => true
  | Pc.sendDec _ _ => true
  | Pc.returnClient _ _ => true
  | _ => false

/-- Whether a worker at this control point has sent the `DEC` of a request and
not yet the value that reports its outcome. -/
def isPending : Pc → Bool
  | Pc.returnClient _ _ => true
  | Pc.handle _ _ => true
  | Pc.sendStat _ _ => true
  | _ => false

/-- The number of clients borrowed from the pool. -/
def borrowed (workers : List Pc) : Nat := workers.countP isBorrowed

/-- The number of workers that owe the report of a finished request. -/
def pending (workers : List Pc) : Nat := workers.countP isPending

/-- The values of a list that the aggregator counts in one of the three
status buckets. -/
def bucketed (vs : List Int) : Nat :=
  vs.countP (fun v => decide ((200 ≤ v ∧ v < 300) ∨ (400 ≤ v ∧ v < 500) ∨ 500 ≤ v))

/-- Whether a worker at this control point has sent the `INC` of a request and
not yet its `DEC`. -/
def isStarted : Pc → Bool
  | Pc.request _ => true
  | Pc.sendDec _ _ => true
  | _ => false

/-- The number of workers between their `INC` and their `DEC`. -/
def started (workers : List Pc) : Nat := workers.countP isStarted

/-- Whether a value is one the aggregator takes for a start or a finish. -/
def isControl (v : Int) : Bool := decide (v = INC ∨ v = DEC)

/-- Whether the result a worker carries, or the value it is about to report, is
free of a status code equal to `INC` or `DEC`. -/
def pcClean : Pc → Bool
  | Pc.sendDec _ (Result.resp v) => !isControl v
  | Pc.returnClient _ (Result.resp v) => !isControl v
  | Pc.handle _ (Result.resp v) => !isControl v
  | Pc.sendStat _ v => !isControl v
  | _ => true

/-- Whether an action is free of a server answer whose status code equals `INC`
or `DEC`. -/
def actionClean {F : Type} : Action F → Bool
  | Action.reply _ (Result.resp v) => !isControl v
  | _ => true

/-- The invariant of the engine as long as no server answers with a status code
equal to `INC` or `DEC`: in every prefix of the stream sent on `counterChan` the
`INC` values exceed the `DEC` values by at most the pool size and at least
zero, and the recorded maximum concurrency is within the pool size. -/
structure CleanInv {F : Type} (s₀ : Siege F) (σ : System F) : Prop where
  clean : ∀ pc ∈ σ.workers, pcClean pc = true
  balance : (σ.received ++ σ.counterChan).count INC
              = (σ.received ++ σ.counterChan).count DEC + started σ.workers
  prefixes : ∀ p, p <+: σ.received ++ σ.counterChan →
    p.count DEC ≤ p.count INC ∧ p.count INC ≤ p.count DEC + s₀.Config.MaxConcurrent.toNat
  current : σ.siege.CurrentConcurrent
              = (σ.received.count INC : Int) - (σ.received.count DEC : Int)
  maximum : σ.siege.MaxConcurrent ≤ (s₀.Config.MaxConcurrent.toNat : Int)

/-- The rationals as a stand-in for `float64`, to evaluate the model on concrete
inputs: exact on the small integers used there. -/
def ratOps : Float64Ops ℚ :=
  { zero := 0, inc := fun x => x + 1, div := fun x y => x / y,
    lt := fun x y => decide (x < y), ofInt := fun n => (n : ℚ) }

/-- A `net/http` that accepts the standard methods and every URL, and leaves
header keys as they are; used to evaluate the model on concrete inputs. -/
def plainHttp : NetHttp :=
  { validMethod := fun m => decide (m ∈ ["GET", "HEAD", "POST", "PUT", "PATCH", "DELETE", "OPTIONS"]),
    parseURL := fun u => some u,
    canonicalKey := fun k => k }

/-- A configuration with three templates, one of them with `Repeat = 0`. -/
def sampleConfig : SiegeConfig :=
  { Urls := [{ Url := "http://x/a", Method := "GET", Headers := [], Body := "", Repeat := 2 },
             { Url := "http://x/z", Method := "GET", Headers := [], Body := "", Repeat := 0 },
             { Url := "http://x/b", Method := "POST", Headers := [("Accept", "*/*")],
               Body := "hello", Repeat := 3 }],
    Duration := 0, MaxConcurrent := 5, MaxRPS := 1000 }

/-- A source of draws for `rand.Shuffle`. -/
def sampleDraw (i : Nat) : Nat := 7 * i + 3

/-- A configuration whose duration in nanoseconds does not fit 64 bits. -/
def longConfig : SiegeConfig :=
  { Urls := [{ Url := "http://x/a", Method := "GET", Headers := [], Body := "", Repeat := 1 }],
    Duration := 9223372037, MaxConcurrent := 5, MaxRPS := 1000 }

/-- The invariant of the engine, relative to the counters `s₀` it started with:
the configuration is not touched; clients are either in the pool or borrowed;
in every prefix of the stream sent on `counterChan` the bucketed values are
at most the `DEC` values, with room for the reports still owed; and the
counters are the result of processing the received values in order. -/
structure Inv {F : Type} (ops : Float64Ops F) (s₀ : Siege F) (σ : System F) : Prop where
  config : σ.siege.Config = s₀.Config
  pool : σ.clientPool + borrowed σ.workers = s₀.Config.MaxConcurrent.toNat
  good : ∀ p, p <+: σ.received ++ σ.counterChan → bucketed p ≤ p.count DEC
  total : bucketed (σ.received ++ σ.counterChan) + pending σ.workers
            ≤ (σ.received ++ σ.counterChan).count DEC
  counters : ∃ events : List (Int × F),
    events.map Prod.fst = σ.received ∧ σ.siege = processAll ops s₀ events

/-- A configuration with one template and a pool of one client. -/
def oneClientConfig : SiegeConfig :=
  { Urls := [{ Url := "http://x/a", Method := "GET", Headers := [], Body := "", Repeat := 1 }],
    Duration := 60, MaxConcurrent := 1, MaxRPS := 1000 }

/-- The engine run from `NewSiege` on a configuration along a list of actions. -/
def runFrom (config : SiegeConfig) (as : List (Action ℚ)) : Option (System ℚ) :=
  match NewSiege ratOps config sampleDraw with
  | some σ₀ => run ratOps plainHttp σ₀ as
  | none => none

/-- Worker 0 performs one request that the server answers with status `code`,
up to and including the report of the status. -/
def oneRequest (code : Int) : List (Action ℚ) :=
  [Action.step 0, Action.acquire 0, Action.step 0, Action.reply 0 (Result.resp code),
   Action.step 0, Action.step 0, Action.step 0, Action.step 0]

/-- The aggregator receives `n` values, `t` seconds after the start. -/
def receive (n : Nat) (t : ℚ) : List (Action ℚ) := List.replicate n (Action.recv t)

/-- The state `NewSiege` builds for `oneClientConfig`. -/
def oneClientStart : System ℚ :=
  { siege := newCounters ratOps oneClientConfig
      [{ Url := "http://x/a", Method := "GET", Headers := [], Body := "", Repeat := 1 }],
    cancelled := false, clientPool := 1, counterChan := [], chanClosed := false,
    aggregatorDone := false, controllerRunning := true, workers := [], received := [] }

/-- The state after one tick, one request of worker 0 answered with status 200,
and the three values of that request received by the aggregator. -/
def oneClientAfter200 : System ℚ :=
  { siege :=
      { Config := oneClientConfig,
        ExpandedUrls :=
          [{ Url := "http://x/a", Method := "GET", Headers := [], Body := "", Repeat := 1 }],
        CurrentRPS := ratOps.div (ratOps.inc ratOps.zero) 1,
        CurrentRequests := ratOps.inc ratOps.zero,
        CurrentConcurrent := 0, MaxConcurrent := 1,
        MaxRPS := ratOps.div (ratOps.inc ratOps.zero) 1,
        connFailed := 0, resp2xx := 1, resp5xx := 0, resp4xx := 0 },
    cancelled := false, clientPool := 1, counterChan := [], chanClosed := false,
    aggregatorDone := false, controllerRunning := true,
    workers := List.replicate 10 Pc.top, received := [1, 2, 200] }

/-- A template with a body to post. -/
def postHello : SiegeUrl :=
  { Url := "http://x/a", Method := "POST", Headers := [("Content-Type", "text/plain")],
    Body := "hello", Repeat := 1 }

/-! ## Request catalog: length and permutation invariance -/

theorem appendCopies_eq (acc : List SiegeUrl) (url : SiegeUrl) (n : Nat) :
    appendCopies acc url n = acc ++ List.replicate n { url with Repeat := 1 } := by
  induction n generalizing acc with
  | zero => simp [appendCopies]
  | succ n ih =>
    rw [appendCopies, ih, List.replicate_succ]
    simp

theorem foldl_appendCopies (urls : List SiegeUrl) (acc : List SiegeUrl) :
    urls.foldl (fun expandedUrls url => appendCopies expandedUrls url url.Repeat.toNat) acc
      = acc ++ inOrderExpansion urls := by
  induction urls generalizing acc with
  | nil => simp [inOrderExpansion]
  | cons u us ih =>
    rw [List.foldl_cons, ih, appendCopies_eq]
    simp [inOrderExpansion]

theorem expandLoop_eq (urls : List SiegeUrl) : expandLoop urls = inOrderExpansion urls := by
  simp [expandLoop, foldl_appendCopies]

theorem length_inOrderExpansion (urls : List SiegeUrl) :
    ((inOrderExpansion urls).length : Int) = (urls.map (fun t => (t.Repeat.toNat : Int))).sum := by
  induction urls with
  | nil => simp [inOrderExpansion]
  | cons u us ih =>
    simp only [inOrderExpansion, List.flatMap_cons, List.length_append, List.length_replicate,
      List.map_cons, List.sum_cons] at ih ⊢
    rw [← ih]
    push_cast
    rfl

theorem swap_isSome {α : Type} (xs : List α) (i j : Nat) (hi : i < xs.length)
    (hj : j < xs.length) : ∃ ys, swap xs i j = some ys := by
  simp [swap, List.getElem?_eq_getElem hi, List.getElem?_eq_getElem hj]

theorem swap_perm {α : Type} [DecidableEq α] (xs ys : List α) (i j : Nat)
    (h : swap xs i j = some ys) : ys.Perm xs := by
  unfold swap at h
  simp only [List.get?_eq_getElem?] at h
  cases hi : xs[i]? with
  | none => simp [hi] at h
  | some a =>
    cases hj : xs[j]? with
    | none => simp [hi, hj] at h
    | some b =>
      simp only [hi, hj, Option.some.injEq] at h
      subst h
      obtain ⟨hil, hia⟩ := List.getElem?_eq_some_iff.mp hi
      obtain ⟨hjl, hjb⟩ := List.getElem?_eq_some_iff.mp hj
      rw [List.perm_iff_count]
      intro c
      have hjl2 : j < (xs.set i b).length := by simpa using hjl
      rw [List.count_set _ _ _ _ hjl2, List.count_set _ _ _ _ hil]
      have hget : (xs.set i b)[j] = b := by
        rw [List.getElem_set]
        split
        · rfl
        · exact hjb
      rw [hget, hia]
      have ha : a ∈ xs := hia ▸ List.getElem_mem hil
      have hc : (if (a == c) = true then 1 else 0) ≤ List.count c xs := by
        split
        · rename_i hac
          have : a = c := by simpa using hac
          subst this
          exact List.count_pos_iff.mpr ha
        · exact Nat.zero_le _
      omega

theorem shuffleLoop_perm {α : Type} [DecidableEq α] (draw : Nat → Nat) (i : Nat) (xs : List α)
    (hi : i < xs.length ∨ i = 0) : ∃ ys, shuffleLoop draw i xs = some ys ∧ ys.Perm xs := by
  induction i generalizing xs with
  | zero => exact ⟨xs, rfl, List.Perm.refl _⟩
  | succ i ih =>
    have hlen : i + 1 < xs.length := by omega
    have hj : draw (i + 1) % (i + 2) < xs.length := by
      have := Nat.mod_lt (draw (i + 1)) (show i + 2 > 0 by omega)
      omega
    obtain ⟨ys, hys⟩ := swap_isSome xs (i + 1) _ hlen hj
    have hp := swap_perm xs ys _ _ hys
    obtain ⟨zs, hzs, hperm⟩ := ih ys (Or.inl (by rw [hp.length_eq]; omega))
    exact ⟨zs, by simp [shuffleLoop, hys, hzs], hperm.trans hp⟩

theorem Shuffle_perm {α : Type} [DecidableEq α] (draw : Nat → Nat) (xs : List α) :
    ∃ ys, Shuffle draw xs = some ys ∧ ys.Perm xs := by
  apply shuffleLoop_perm
  omega

/-- C1: when every template has `Repeat >= 0`, `expandUrlList` returns, whatever
the shuffle draws, a sequence whose length is the sum of the `Repeat` fields of
`Config.Urls`; and for a template with `Repeat = 0` the expansion loop appends
nothing. -/
theorem expandUrlList_length (config : SiegeConfig) (draw : Nat → Nat)
    (h : ∀ t ∈ config.Urls, 0 ≤ t.Repeat) :
    ∃ r, expandUrlList config draw = some r ∧
      (r.length : Int) = (config.Urls.map (fun t => t.Repeat)).sum ∧
      ∀ t ∈ config.Urls, t.Repeat = 0 →
        ∀ expandedUrls, appendCopies expandedUrls t t.Repeat.toNat = expandedUrls := by
  obtain ⟨r, hr, hperm⟩ := Shuffle_perm draw (expandLoop config.Urls)
  refine ⟨r, hr, ?_, ?_⟩
  · rw [hperm.length_eq, expandLoop_eq, length_inOrderExpansion]
    congr 1
    apply List.map_congr_left
    intro t ht
    exact Int.toNat_of_nonneg (h t ht)
  · intro t _ h0 acc
    rw [h0]
    rfl

/-- Witness of C1 on `sampleConfig`. -/
theorem expandUrlList_length_witness :
    (∀ t ∈ sampleConfig.Urls, 0 ≤ t.Repeat) ∧
    ∃ r, expandUrlList sampleConfig sampleDraw = some r ∧
      (r.length : Int) = (sampleConfig.Urls.map (fun t => t.Repeat)).sum ∧
      ∀ t ∈ sampleConfig.Urls, t.Repeat = 0 →
        ∀ expandedUrls, appendCopies expandedUrls t t.Repeat.toNat = expandedUrls :=
  ⟨by decide, expandUrlList_length sampleConfig sampleDraw (by decide)⟩

/-- C2: for every configuration and whatever the shuffle draws, `expandUrlList`
returns a permutation of the in-order expansion (for each template, in input
order, `Repeat` copies with `Repeat` set to `1`): same length, same number of
occurrences of every instance. -/
theorem expandUrlList_perm (config : SiegeConfig) (draw : Nat → Nat) :
    ∃ r, expandUrlList config draw = some r ∧
      r.Perm (inOrderExpansion config.Urls) ∧
      r.length = (inOrderExpansion config.Urls).length ∧
      ∀ x, r.count x = (inOrderExpansion config.Urls).count x := by
  obtain ⟨r, hr, hperm⟩ := Shuffle_perm draw (expandLoop config.Urls)
  rw [expandLoop_eq] at hperm
  exact ⟨r, hr, hperm, hperm.length_eq, fun x => hperm.count_eq x⟩

/-! ## Stats aggregator -/

/-- C3: the event step on a value `v` adds exactly one to `resp2xx` when
`200 <= v <= 299`, to `resp4xx` when `400 <= v <= 499`, to `resp5xx` when
`v >= 500`, and changes no other field of the counters. -/
theorem handleValue_status {F : Type} (ops : Float64Ops F) (s : Siege F) (v : Int)
    (elapsed : F) :
    (200 ≤ v ∧ v ≤ 299 → handleValue ops s v elapsed = { s with resp2xx := s.resp2xx + 1 }) ∧
    (400 ≤ v ∧ v ≤ 499 → handleValue ops s v elapsed = { s with resp4xx := s.resp4xx + 1 }) ∧
    (500 ≤ v → handleValue ops s v elapsed = { s with resp5xx := s.resp5xx + 1 }) := by
  refine ⟨?_, ?_, ?_⟩
  · rintro ⟨h1, h2⟩
    have a1 : ¬ v = INC := by unfold INC; omega
    have a2 : ¬ v = DEC := by unfold DEC; omega
    have a3 : ¬ v = DISCONNECTED := by unfold DISCONNECTED; omega
    have a4 : v ≥ 200 ∧ v < 300 := ⟨h1, by omega⟩
    simp only [handleValue, a1, a2, a3, a4, if_false, if_true, and_self]
  · rintro ⟨h1, h2⟩
    have a1 : ¬ v = INC := by unfold INC; omega
    have a2 : ¬ v = DEC := by unfold DEC; omega
    have a3 : ¬ v = DISCONNECTED := by unfold DISCONNECTED; omega
    have a4 : ¬ (v ≥ 200 ∧ v < 300) := by omega
    have a5 : v ≥ 400 ∧ v < 500 := ⟨h1, by omega⟩
    simp only [handleValue, a1, a2, a3, a4, a5, if_false, if_true, and_self]
  · intro h1
    have a1 : ¬ v = INC := by unfold INC; omega
    have a2 : ¬ v = DEC := by unfold DEC; omega
    have a3 : ¬ v = DISCONNECTED := by unfold DISCONNECTED; omega
    have a4 : ¬ (v ≥ 200 ∧ v < 300) := by omega
    have a5 : ¬ (v ≥ 400 ∧ v < 500) := by omega
    have a6 : v ≥ 500 := h1
    simp only [handleValue, a1, a2, a3, a4, a5, a6, if_false, if_true]

/-- Witness of C3 on the codes 204, 404 and 503. -/
theorem handleValue_status_witness :
    handleValue ratOps (newCounters ratOps sampleConfig []) 204 1
      = { newCounters ratOps sampleConfig [] with
          resp2xx := (newCounters ratOps sampleConfig []).resp2xx + 1 } ∧
    handleValue ratOps (newCounters ratOps sampleConfig []) 404 1
      = { newCounters ratOps sampleConfig [] with
          resp4xx := (newCounters ratOps sampleConfig []).resp4xx + 1 } ∧
    handleValue ratOps (newCounters ratOps sampleConfig []) 503 1
      = { newCounters ratOps sampleConfig [] with
          resp5xx := (newCounters ratOps sampleConfig []).resp5xx + 1 } :=
  ⟨(handleValue_status ratOps _ 204 1).1 (by decide),
   (handleValue_status ratOps _ 404 1).2.1 (by decide),
   (handleValue_status ratOps _ 503 1).2.2 (by decide)⟩

/-- A value outside the three bucket ranges that is none of the constants
`INC`, `DEC`, `DISCONNECTED` leaves the counters as they are. -/
theorem handleValue_passThrough {F : Type} (ops : Float64Ops F) (s : Siege F) (v : Int)
    (elapsed : F) (hv : v < 200 ∨ (300 ≤ v ∧ v ≤ 399))
    (h1 : v ≠ INC) (h2 : v ≠ DEC) (h3 : v ≠ DISCONNECTED) :
    handleValue ops s v elapsed = s := by
  have a4 : ¬ (v ≥ 200 ∧ v < 300) := by omega
  have a5 : ¬ (v ≥ 400 ∧ v < 500) := by omega
  have a6 : ¬ (v ≥ 500) := by omega
  simp only [handleValue, h1, h2, h3, a4, a5, a6, if_false]

/-- C4, the code at the status codes 1, 2 and 3 (all below 200): the event
step takes them for `INC`, `DEC` and `DISCONNECTED`, so `CurrentConcurrent`
and `MaxConcurrent` rise, `CurrentConcurrent` falls, and `connFailed` rises. -/
theorem handleValue_small_status_codes :
    (handleValue ratOps (newCounters ratOps sampleConfig []) 1 1).CurrentConcurrent = 1 ∧
    (handleValue ratOps (newCounters ratOps sampleConfig []) 1 1).MaxConcurrent = 1 ∧
    (handleValue ratOps (newCounters ratOps sampleConfig []) 1 1).CurrentRequests = 0 + 1 ∧
    (handleValue ratOps (newCounters ratOps sampleConfig []) 2 1).CurrentConcurrent = -1 ∧
    (handleValue ratOps (newCounters ratOps sampleConfig []) 3 1).connFailed = 1 ∧
    (newCounters ratOps sampleConfig []).CurrentConcurrent = 0 ∧
    (newCounters ratOps sampleConfig []).MaxConcurrent = 0 ∧
    (newCounters ratOps sampleConfig []).CurrentRequests = 0 ∧
    (newCounters ratOps sampleConfig []).connFailed = 0 := by
  refine ⟨rfl, rfl, rfl, rfl, rfl, rfl, rfl, rfl, rfl⟩

theorem handleValue_CurrentConcurrent {F : Type} (ops : Float64Ops F) (s : Siege F) (v : Int)
    (elapsed : F) :
    (handleValue ops s v elapsed).CurrentConcurrent
      = s.CurrentConcurrent + (if v = INC then 1 else 0) - (if v = DEC then 1 else 0) := by
  have hne : ¬ (INC = DEC) := by decide
  unfold handleValue
  by_cases h1 : v = INC
  · subst h1
    simp [hne, incrementCurrentRequests]
  · by_cases h2 : v = DEC
    · subst h2
      simp [h1, decrementCurrentConcurrent]
    · simp only [h1, h2, if_false]
      split_ifs <;> simp

theorem CurrentConcurrent_after {F : Type} (ops : Float64Ops F) (s : Siege F)
    (events : List (Int × F)) :
    (processAll ops s events).CurrentConcurrent
      = s.CurrentConcurrent + ((events.map Prod.fst).count INC : Int)
          - ((events.map Prod.fst).count DEC : Int) := by
  induction events generalizing s with
  | nil => simp [processAll]
  | cons e es ih =>
    have hstep : processAll ops s (e :: es) = processAll ops (handleValue ops s e.1 e.2) es := rfl
    rw [hstep, ih, handleValue_CurrentConcurrent]
    simp only [List.map_cons, List.count_cons]
    by_cases h1 : e.1 = INC <;> by_cases h2 : e.1 = DEC <;> simp [h1, h2] <;> omega

/-- C5: from the zero counters of `NewSiege`, after the event step has processed
any finite list of channel values, `CurrentConcurrent` is the number of `INC`
values minus the number of `DEC` values processed; so it is `0` when the two
numbers are equal. -/
theorem processAll_CurrentConcurrent {F : Type} (ops : Float64Ops F) (config : SiegeConfig)
    (expanded : List SiegeUrl) (events : List (Int × F)) :
    (processAll ops (newCounters ops config expanded) events).CurrentConcurrent
      = ((events.map Prod.fst).count INC : Int) - ((events.map Prod.fst).count DEC : Int) ∧
    ((events.map Prod.fst).count INC = (events.map Prod.fst).count DEC →
      (processAll ops (newCounters ops config expanded) events).CurrentConcurrent = 0) := by
  have h := CurrentConcurrent_after ops (newCounters ops config expanded) events
  have h0 : (newCounters ops config expanded).CurrentConcurrent = 0 := rfl
  rw [h0] at h
  refine ⟨by rw [h]; ring, fun heq => ?_⟩
  rw [h, heq]
  ring

/-- Witness of C5: two requests started and finished, one status code. -/
theorem processAll_CurrentConcurrent_witness :
    (([(1, 1), (1, 1), (2, 2), (200, 2), (2, 3)] : List (Int × ℚ)).map Prod.fst).count INC
      = (([(1, 1), (1, 1), (2, 2), (200, 2), (2, 3)] : List (Int × ℚ)).map Prod.fst).count DEC ∧
    (processAll ratOps (newCounters ratOps sampleConfig [])
      [(1, 1), (1, 1), (2, 2), (200, 2), (2, 3)]).CurrentConcurrent = 0 :=
  ⟨by decide,
   (processAll_CurrentConcurrent ratOps sampleConfig [] [(1, 1), (1, 1), (2, 2), (200, 2), (2, 3)]).2
     (by decide)⟩

/-! ## Ramp controller -/

theorem wrapInt64_of_fits (x : Int)
    (h : -9223372036854775808 ≤ x ∧ x ≤ 9223372036854775807) : wrapInt64 x = x := by
  unfold wrapInt64
  omega

/-- C8 as stated fails for a duration whose nanosecond count overflows 64 bits:
with `Duration = 9223372037`, one second after the start the elapsed time does
not exceed `Duration` seconds, the snapshot is below both ceilings, and yet the
tick launches no Worker and cancels the run. -/
theorem rampTick_long_duration :
    ¬ timeOverSpec longConfig 1000000000 ∧
    ratOps.lt 0 (ratOps.ofInt longConfig.MaxRPS) = true ∧
    (0 : Int) < longConfig.MaxConcurrent ∧
    rampTick ratOps longConfig 1000000000 0 0 = { launched := 0, cancelled := true } := by
  refine ⟨by decide, ?_, by decide, ?_⟩
  · simp [ratOps, longConfig]
  · simp [rampTick, longConfig, wrapInt64]

/-- C8, amended: when `Duration` seconds fit a `time.Duration` (64-bit
nanoseconds), one tick launches exactly 10 Workers if the elapsed time does not
exceed `Duration` seconds, `currentRPS < float64(MaxRPS)` and
`currentConcurrent < MaxConcurrent`, and none otherwise; it cancels and stops
exactly when the elapsed time exceeds `Duration` seconds; with `Duration = 0`
and a positive elapsed time it launches none and cancels. -/
theorem rampTick_spec {F : Type} (ops : Float64Ops F) (config : SiegeConfig) (elapsed : Int)
    (currentRPS : F) (currentConcurrents : Int)
    (hfit : -9223372036854775808 ≤ config.Duration * 1000000000 ∧
      config.Duration * 1000000000 ≤ 9223372036854775807) :
    (rampTick ops config elapsed currentRPS currentConcurrents).launched
      = (if ¬ timeOverSpec config elapsed ∧ ops.lt currentRPS (ops.ofInt config.MaxRPS) = true ∧
            currentConcurrents < config.MaxConcurrent then 10 else 0) ∧
    ((rampTick ops config elapsed currentRPS currentConcurrents).cancelled = true
      ↔ timeOverSpec config elapsed) ∧
    (config.Duration = 0 → 0 < elapsed →
      rampTick ops config elapsed currentRPS currentConcurrents
        = { launched := 0, cancelled := true }) := by
  have hw := wrapInt64_of_fits _ hfit
  refine ⟨?_, ?_, ?_⟩
  · unfold rampTick timeOverSpec
    simp only [hw]
    by_cases h1 : elapsed > config.Duration * 1000000000
    · simp [h1]
    · by_cases h2 : ops.lt currentRPS (ops.ofInt config.MaxRPS) = true
      · by_cases h3 : currentConcurrents < config.MaxConcurrent
        · simp [h1, h2, h3]
        · simp [h1, h2, h3]
      · simp [h1, h2]
  · unfold rampTick timeOverSpec
    simp [hw]
  · intro h0 hpos
    unfold rampTick
    simp only [hw]
    have : elapsed > config.Duration * 1000000000 := by rw [h0]; simpa using hpos
    simp [this]

/-- Witness of the amended C8: `Duration = 0`, first tick after one second. -/
theorem rampTick_spec_witness :
    (-9223372036854775808 ≤ sampleConfig.Duration * 1000000000 ∧
      sampleConfig.Duration * 1000000000 ≤ 9223372036854775807) ∧
    sampleConfig.Duration = 0 ∧ (0 : Int) < 1000000000 ∧
    rampTick ratOps sampleConfig 1000000000 0 0 = { launched := 0, cancelled := true } :=
  ⟨by decide, by decide, by decide,
   (rampTick_spec ratOps sampleConfig 1000000000 0 0 (by decide)).2.2 (by decide) (by decide)⟩

/-! ## The engine: invariants of the transition system -/

theorem countP_set_of_get? (p : Pc → Bool) (l : List Pc) (w : Nat) (pc pc' : Pc)
    (h : l.get? w = some pc) :
    (l.set w pc').countP p + (if p pc then 1 else 0)
      = l.countP p + (if p pc' then 1 else 0) := by
  rw [List.get?_eq_getElem?] at h
  obtain ⟨hw, hpc⟩ := List.getElem?_eq_some_iff.mp h
  rw [List.countP_set p l w pc' hw, hpc]
  have := List.boole_getElem_le_countP p l w hw
  rw [hpc] at this
  omega

theorem send_eq {F : Type} (σ σ' : System F) (v : Int) (h : send σ v = some σ') :
    σ' = { σ with counterChan := σ.counterChan ++ [v] } := by
  unfold send at h
  split at h
  · exact (Option.some.inj h).symm
  · exact absurd h (by simp)

theorem bucketed_concat (l : List Int) (v : Int) :
    bucketed (l ++ [v])
      = bucketed l + (if (200 ≤ v ∧ v < 300) ∨ (400 ≤ v ∧ v < 500) ∨ 500 ≤ v then 1 else 0) := by
  simp [bucketed, List.countP_cons]

theorem count_DEC_concat (l : List Int) (v : Int) :
    (l ++ [v]).count DEC = l.count DEC + (if v = DEC then 1 else 0) := by
  simp [List.count_singleton]

/-- A worker step that sends nothing keeps the invariant if it keeps the sum of
pool and borrowed clients and does not add a pending report. -/
theorem Inv.keep_of_quiet {F : Type} {ops : Float64Ops F} {s₀ : Siege F} {σ σ' : System F}
    (hI : Inv ops s₀ σ) (hs : σ'.siege = σ.siege) (hr : σ'.received = σ.received)
    (hc : σ'.counterChan = σ.counterChan)
    (hpool : σ'.clientPool + borrowed σ'.workers = σ.clientPool + borrowed σ.workers)
    (hpend : pending σ'.workers ≤ pending σ.workers) : Inv ops s₀ σ' := by
  refine ⟨by rw [hs]; exact hI.config, by rw [hpool]; exact hI.pool, ?_, ?_, ?_⟩
  · rw [hr, hc]; exact hI.good
  · rw [hr, hc]; have := hI.total; omega
  · rw [hr, hs]; exact hI.counters

/-- A worker step that sends `v` keeps the invariant if it keeps the sum of pool
and borrowed clients and the pending reports account for `v`. -/
theorem Inv.keep_of_send {F : Type} {ops : Float64Ops F} {s₀ : Siege F} {σ σ' : System F} (v : Int)
    (hI : Inv ops s₀ σ) (hs : σ'.siege = σ.siege) (hr : σ'.received = σ.received)
    (hc : σ'.counterChan = σ.counterChan ++ [v])
    (hpool : σ'.clientPool + borrowed σ'.workers = σ.clientPool + borrowed σ.workers)
    (hpend : (if (200 ≤ v ∧ v < 300) ∨ (400 ≤ v ∧ v < 500) ∨ 500 ≤ v then 1 else 0)
        + pending σ'.workers ≤ pending σ.workers + (if v = DEC then 1 else 0)) :
    Inv ops s₀ σ' := by
  have htot : bucketed (σ'.received ++ σ'.counterChan) + pending σ'.workers
      ≤ (σ'.received ++ σ'.counterChan).count DEC := by
    rw [hr, hc, ← List.append_assoc, bucketed_concat, count_DEC_concat]
    have := hI.total
    omega
  refine ⟨by rw [hs]; exact hI.config, by rw [hpool]; exact hI.pool, ?_, htot, ?_⟩
  · intro p hp
    rw [hr, hc, ← List.append_assoc, List.prefix_concat_iff] at hp
    rcases hp with hp | hp
    · rw [hp]
      rw [hr, hc, ← List.append_assoc] at htot
      omega
    · exact hI.good p hp
  · rw [hr, hs]; exact hI.counters

theorem Inv.keep_workerStep {F : Type} {ops : Float64Ops F} {s₀ : Siege F} (lib : NetHttp)
    {σ σ' : System F} (w : Nat) (a : Action F) (hI : Inv ops s₀ σ)
    (h : workerStep lib σ w a = some σ') : Inv ops s₀ σ' := by
  unfold GoSiege.workerStep at h
  split at h
  · -- top
    rename_i hpc
    have hb := fun pc' => countP_set_of_get? isBorrowed σ.workers w _ pc' hpc
    have hp := fun pc' => countP_set_of_get? isPending σ.workers w _ pc' hpc
    split at h
    · cases h
      have hb := hb Pc.exited; have hp := hp Pc.exited
      simp [isBorrowed, isPending] at hb hp
      exact hI.keep_of_quiet rfl rfl rfl (by simp [setPc, borrowed, hb]) (by simp [setPc, pending, hp])
    · split at h
      · cases h
        have hb := hb (Pc.getClient 0); have hp := hp (Pc.getClient 0)
        simp [isBorrowed, isPending] at hb hp
        exact hI.keep_of_quiet rfl rfl rfl (by simp [setPc, borrowed, hb]) (by simp [setPc, pending, hp])
      · cases h
        exact hI
  · -- getClient, a client is taken
    rename_i k _ hpc
    have hb := countP_set_of_get? isBorrowed σ.workers w _ (Pc.sendInc k) hpc
    have hp := countP_set_of_get? isPending σ.workers w _ (Pc.sendInc k) hpc
    simp [isBorrowed, isPending] at hb hp
    split at h
    · cases h
      refine hI.keep_of_quiet rfl rfl rfl ?_ (by simp [setPc, pending, hp])
      simp only [setPc, borrowed, hb]
      omega
    · exact absurd h (by simp)
  · -- getClient, the context is done
    rename_i hpc
    have hb := countP_set_of_get? isBorrowed σ.workers w _ Pc.exited hpc
    have hp := countP_set_of_get? isPending σ.workers w _ Pc.exited hpc
    simp [isBorrowed, isPending] at hb hp
    split at h
    · cases h
      exact hI.keep_of_quiet rfl rfl rfl (by simp [setPc, borrowed, hb]) (by simp [setPc, pending, hp])
    · exact absurd h (by simp)
  · -- stats <- INC
    rename_i k _ hpc
    have hb := countP_set_of_get? isBorrowed σ.workers w _ (Pc.request k) hpc
    have hp := countP_set_of_get? isPending σ.workers w _ (Pc.request k) hpc
    simp [isBorrowed, isPending] at hb hp
    obtain ⟨σ₁, hsend, rfl⟩ := Option.map_eq_some'.mp h
    rw [send_eq σ σ₁ INC hsend]
    refine hI.keep_of_send INC rfl rfl rfl (by simp [setPc, borrowed, hb]) ?_
    simp [setPc, pending, hp, INC, DEC]
  · -- the request cannot be built
    rename_i k _ hpc
    have hb := countP_set_of_get? isBorrowed σ.workers w _ (Pc.sendDec k Result.err) hpc
    have hp := countP_set_of_get? isPending σ.workers w _ (Pc.sendDec k Result.err) hpc
    simp [isBorrowed, isPending] at hb hp
    split at h
    · split at h
      · cases h
        exact hI.keep_of_quiet rfl rfl rfl (by simp [setPc, borrowed, hb])
          (by simp [setPc, pending, hp])
      · exact absurd h (by simp)
    · exact absurd h (by simp)
  · -- client.Do returns
    rename_i k _ r hpc
    have hb := countP_set_of_get? isBorrowed σ.workers w _ (Pc.sendDec k r) hpc
    have hp := countP_set_of_get? isPending σ.workers w _ (Pc.sendDec k r) hpc
    simp [isBorrowed, isPending] at hb hp
    split at h
    · split at h
      · exact absurd h (by simp)
      · cases h
        exact hI.keep_of_quiet rfl rfl rfl (by simp [setPc, borrowed, hb])
          (by simp [setPc, pending, hp])
    · exact absurd h (by simp)
  · -- stats <- DEC
    rename_i k r _ hpc
    have hb := countP_set_of_get? isBorrowed σ.workers w _ (Pc.returnClient k r) hpc
    have hp := countP_set_of_get? isPending σ.workers w _ (Pc.returnClient k r) hpc
    simp [isBorrowed, isPending] at hb hp
    obtain ⟨σ₁, hsend, rfl⟩ := Option.map_eq_some'.mp h
    rw [send_eq σ σ₁ DEC hsend]
    refine hI.keep_of_send DEC rfl rfl rfl (by simp [setPc, borrowed, hb]) ?_
    simp [setPc, pending, hp, DEC]
  · -- returnClient
    rename_i k r _ hpc
    have hb := countP_set_of_get? isBorrowed σ.workers w _ (Pc.handle k r) hpc
    have hp := countP_set_of_get? isPending σ.workers w _ (Pc.handle k r) hpc
    simp [isBorrowed, isPending] at hb hp
    split at h
    · cases h
      refine hI.keep_of_quiet rfl rfl rfl ?_ (by simp [setPc, pending, hp])
      simp only [setPc, borrowed]
      omega
    · exact absurd h (by simp)
  · -- an error came back
    rename_i k _ hpc
    have hb := fun pc' => countP_set_of_get? isBorrowed σ.workers w _ pc' hpc
    have hp := fun pc' => countP_set_of_get? isPending σ.workers w _ pc' hpc
    split at h
    · cases h
      have hb := hb Pc.exited; have hp := hp Pc.exited
      simp [isBorrowed, isPending] at hb hp
      refine hI.keep_of_quiet rfl rfl rfl (by simp [setPc, borrowed, hb]) ?_
      simp only [setPc, pending]
      omega
    · cases h
      have hb := hb (Pc.sendStat k DISCONNECTED); have hp := hp (Pc.sendStat k DISCONNECTED)
      simp [isBorrowed, isPending] at hb hp
      exact hI.keep_of_quiet rfl rfl rfl (by simp [setPc, borrowed, hb]) (by simp [setPc, pending, hp])
  · -- a response came back
    rename_i k code _ hpc
    have hb := countP_set_of_get? isBorrowed σ.workers w _ (Pc.sendStat k code) hpc
    have hp := countP_set_of_get? isPending σ.workers w _ (Pc.sendStat k code) hpc
    simp [isBorrowed, isPending] at hb hp
    cases h
    exact hI.keep_of_quiet rfl rfl rfl (by simp [setPc, borrowed, hb]) (by simp [setPc, pending, hp])
  · -- stats <- v
    rename_i k v _ hpc
    obtain ⟨σ₁, hsend, rfl⟩ := Option.map_eq_some'.mp h
    have hb := countP_set_of_get? isBorrowed σ.workers w _ (nextPc σ₁ k) hpc
    have hp := countP_set_of_get? isPending σ.workers w _ (nextPc σ₁ k) hpc
    have hnb : isBorrowed (nextPc σ₁ k) = false := by
      unfold nextPc; split <;> rfl
    have hnp : isPending (nextPc σ₁ k) = false := by
      unfold nextPc; split <;> rfl
    rw [hnb] at hb
    rw [hnp] at hp
    simp [isBorrowed, isPending] at hb hp
    have hσ₁ := send_eq σ σ₁ v hsend
    have hw : σ₁.workers = σ.workers := by rw [hσ₁]
    refine hI.keep_of_send v (by rw [hσ₁]; rfl) (by rw [hσ₁]; rfl) (by rw [hσ₁]; rfl) ?_ ?_
    · have hcp : σ₁.clientPool = σ.clientPool := by rw [hσ₁]
      simp only [setPc, borrowed, hw, hcp, hb]
    · have : pending (setPc σ₁ w (nextPc σ₁ k)).workers + 1 = pending σ.workers := by
        simp only [setPc, pending, hw]; exact hp
      split <;> split <;> omega
  · exact absurd h (by simp)

theorem handleValue_Config {F : Type} (ops : Float64Ops F) (s : Siege F) (v : Int) (elapsed : F) :
    (handleValue ops s v elapsed).Config = s.Config := by
  unfold handleValue incrementCurrentRequests decrementCurrentConcurrent
  split_ifs <;> rfl

theorem handleValue_buckets {F : Type} (ops : Float64Ops F) (s : Siege F) (v : Int)
    (elapsed : F) :
    (handleValue ops s v elapsed).resp2xx + (handleValue ops s v elapsed).resp4xx
        + (handleValue ops s v elapsed).resp5xx
      = s.resp2xx + s.resp4xx + s.resp5xx
        + (if (200 ≤ v ∧ v < 300) ∨ (400 ≤ v ∧ v < 500) ∨ 500 ≤ v then 1 else 0) := by
  unfold handleValue incrementCurrentRequests decrementCurrentConcurrent INC DEC DISCONNECTED
  split_ifs <;> simp <;> omega

theorem processAll_buckets {F : Type} (ops : Float64Ops F) (s : Siege F)
    (events : List (Int × F)) :
    (processAll ops s events).resp2xx + (processAll ops s events).resp4xx
        + (processAll ops s events).resp5xx
      = s.resp2xx + s.resp4xx + s.resp5xx + (bucketed (events.map Prod.fst) : Int) := by
  induction events generalizing s with
  | nil => simp [processAll, bucketed]
  | cons e es ih =>
    have hstep : processAll ops s (e :: es) = processAll ops (handleValue ops s e.1 e.2) es := rfl
    rw [hstep, ih, handleValue_buckets]
    simp only [bucketed, List.map_cons, List.countP_cons]
    split_ifs <;> simp_all <;> omega

theorem processAll_concat {F : Type} (ops : Float64Ops F) (s : Siege F)
    (events : List (Int × F)) (e : Int × F) :
    processAll ops s (events ++ [e]) = handleValue ops (processAll ops s events) e.1 e.2 := by
  simp [processAll, List.foldl_append]

theorem Inv.keep_step {F : Type} {ops : Float64Ops F} {s₀ : Siege F} (lib : NetHttp)
    {σ σ' : System F} (a : Action F) (hI : Inv ops s₀ σ)
    (h : step ops lib σ a = some σ') : Inv ops s₀ σ' := by
  cases a with
  | cancel =>
    cases h
    exact hI.keep_of_quiet rfl rfl rfl rfl (Nat.le_refl _)
  | tick elapsed =>
    simp only [GoSiege.step] at h
    split at h
    · cases h
      refine hI.keep_of_quiet rfl rfl rfl ?_ ?_
      · simp [borrowed, List.countP_replicate, isBorrowed]
      · simp [pending, List.countP_replicate, isPending]
    · exact absurd h (by simp)
  | controllerExit =>
    simp only [GoSiege.step] at h
    split at h
    · cases h
      exact hI.keep_of_quiet rfl rfl rfl rfl (Nat.le_refl _)
    · exact absurd h (by simp)
  | recv elapsed =>
    simp only [GoSiege.step] at h
    split at h
    · exact absurd h (by simp)
    · split at h
      · rename_i v rest hchan
        cases h
        obtain ⟨events, hev, hsiege⟩ := hI.counters
        refine ⟨?_, hI.pool, ?_, ?_, ⟨events ++ [(v, elapsed)], ?_, ?_⟩⟩
        · simp only [handleValue_Config]; exact hI.config
        · intro p hp
          apply hI.good p
          simpa [hchan] using hp
        · have := hI.total
          simpa [hchan] using this
        · simp [hev]
        · simp only [processAll_concat, hsiege]
      · split at h
        · cases h
          exact hI.keep_of_quiet rfl rfl rfl rfl (Nat.le_refl _)
        · exact absurd h (by simp)
  | closeChan =>
    simp only [GoSiege.step] at h
    split at h
    · cases h
      exact hI.keep_of_quiet rfl rfl rfl rfl (Nat.le_refl _)
    · exact absurd h (by simp)
  | acquire w => exact hI.keep_workerStep lib w _ h
  | giveUp w => exact hI.keep_workerStep lib w _ h
  | reply w r => exact hI.keep_workerStep lib w _ h
  | step w => exact hI.keep_workerStep lib w _ h

theorem Inv.keep_run {F : Type} {ops : Float64Ops F} {s₀ : Siege F} (lib : NetHttp)
    (as : List (Action F)) {σ σ' : System F} (hI : Inv ops s₀ σ)
    (h : run ops lib σ as = some σ') : Inv ops s₀ σ' := by
  induction as generalizing σ with
  | nil => cases h; exact hI
  | cons a as ih =>
    simp only [GoSiege.run] at h
    split at h
    · rename_i σ₁ hstep
      exact ih (hI.keep_step lib a hstep) h
    · exact absurd h (by simp)

theorem Inv.at_NewSiege {F : Type} (ops : Float64Ops F) (config : SiegeConfig) (draw : Nat → Nat)
    (σ₀ : System F) (h : NewSiege ops config draw = some σ₀) :
    ∃ expanded, σ₀.siege = newCounters ops config expanded ∧
      Inv ops (newCounters ops config expanded) σ₀ := by
  unfold GoSiege.NewSiege at h
  split at h
  · exact absurd h (by simp)
  · split at h
    · exact absurd h (by simp)
    · rename_i expanded _
      cases h
      refine ⟨expanded, rfl, rfl, ?_, ?_, ?_, ⟨[], rfl, rfl⟩⟩
      · simp [borrowed, newCounters]
      · intro p hp
        have : p = [] := by simpa using hp
        subst this
        simp [bucketed]
      · simp [bucketed, pending]

theorem Reachable.inv {F : Type} {ops : Float64Ops F} {lib : NetHttp} {config : SiegeConfig}
    {σ : System F} (h : Reachable ops lib config σ) :
    ∃ expanded, Inv ops (newCounters ops config expanded) σ := by
  obtain ⟨draw, σ₀, as, h0, hrun⟩ := h
  obtain ⟨expanded, _, hI⟩ := Inv.at_NewSiege ops config draw σ₀ h0
  exact ⟨expanded, hI.keep_run lib as hrun⟩

/-! ## The engine without status codes that collide with `INC` and `DEC` -/

theorem started_le_borrowed (workers : List Pc) : started workers ≤ borrowed workers := by
  apply List.countP_mono_left
  intro pc _ h
  cases pc <;> simp_all [isStarted, isBorrowed]

theorem clean_set (l : List Pc) (w : Nat) (pc' : Pc) (hl : ∀ pc ∈ l, pcClean pc = true)
    (h : pcClean pc' = true) : ∀ pc ∈ l.set w pc', pcClean pc = true := by
  intro pc hpc
  rcases List.mem_or_eq_of_mem_set hpc with hm | rfl
  · exact hl pc hm
  · exact h

theorem count_INC_concat (l : List Int) (v : Int) :
    (l ++ [v]).count INC = l.count INC + (if v = INC then 1 else 0) := by
  simp [List.count_singleton]

theorem CleanInv.clean_of_quiet {F : Type} {s₀ : Siege F} {σ σ' : System F}
    (hC : CleanInv s₀ σ) (hs : σ'.siege = σ.siege) (hr : σ'.received = σ.received)
    (hc : σ'.counterChan = σ.counterChan)
    (hst : started σ'.workers = started σ.workers)
    (hcl : ∀ pc ∈ σ'.workers, pcClean pc = true) : CleanInv s₀ σ' := by
  refine ⟨hcl, ?_, ?_, ?_, ?_⟩
  · rw [hr, hc, hst]; exact hC.balance
  · rw [hr, hc]; exact hC.prefixes
  · rw [hr, hs]; exact hC.current
  · rw [hs]; exact hC.maximum

theorem CleanInv.clean_of_send {F : Type} {s₀ : Siege F} {σ σ' : System F} (v : Int)
    (hC : CleanInv s₀ σ) (hs : σ'.siege = σ.siege) (hr : σ'.received = σ.received)
    (hc : σ'.counterChan = σ.counterChan ++ [v])
    (hst : (if v = INC then 1 else 0) + started σ.workers
        = started σ'.workers + (if v = DEC then 1 else 0))
    (hcap : started σ'.workers ≤ s₀.Config.MaxConcurrent.toNat)
    (hcl : ∀ pc ∈ σ'.workers, pcClean pc = true) : CleanInv s₀ σ' := by
  have hbal : (σ'.received ++ σ'.counterChan).count INC
      = (σ'.received ++ σ'.counterChan).count DEC + started σ'.workers := by
    rw [hr, hc, ← List.append_assoc, count_INC_concat, count_DEC_concat]
    have := hC.balance
    omega
  refine ⟨hcl, hbal, ?_, ?_, ?_⟩
  · intro p hp
    rw [hr, hc, ← List.append_assoc, List.prefix_concat_iff] at hp
    rcases hp with hp | hp
    · rw [hp]
      rw [hr, hc, ← List.append_assoc] at hbal
      omega
    · exact hC.prefixes p hp
  · rw [hr, hs]; exact hC.current
  · rw [hs]; exact hC.maximum

theorem CleanInv.clean_workerStep {F : Type} {ops : Float64Ops F} {s₀ : Siege F} (lib : NetHttp)
    {σ σ' : System F} (w : Nat) (a : Action F) (hI' : Inv ops s₀ σ') (hC : CleanInv s₀ σ)
    (ha : actionClean a = true) (h : workerStep lib σ w a = some σ') : CleanInv s₀ σ' := by
  have hcap : started σ'.workers ≤ s₀.Config.MaxConcurrent.toNat := by
    have h1 := started_le_borrowed σ'.workers
    have h2 := hI'.pool
    omega
  unfold GoSiege.workerStep at h
  split at h
  · -- top
    rename_i hpc
    have hs := fun pc' => countP_set_of_get? isStarted σ.workers w _ pc' hpc
    split at h
    · cases h
      have hs := hs Pc.exited
      simp [isStarted] at hs
      exact hC.clean_of_quiet rfl rfl rfl (by simp [setPc, started, hs])
        (clean_set _ w _ hC.clean rfl)
    · split at h
      · cases h
        have hs := hs (Pc.getClient 0)
        simp [isStarted] at hs
        exact hC.clean_of_quiet rfl rfl rfl (by simp [setPc, started, hs])
          (clean_set _ w _ hC.clean rfl)
      · cases h
        exact hC
  · -- getClient, a client is taken
    rename_i k _ hpc
    have hs := countP_set_of_get? isStarted σ.workers w _ (Pc.sendInc k) hpc
    simp [isStarted] at hs
    split at h
    · cases h
      exact hC.clean_of_quiet rfl rfl rfl (by simp [setPc, started, hs])
        (clean_set _ w _ hC.clean rfl)
    · exact absurd h (by simp)
  · -- getClient, the context is done
    rename_i hpc
    have hs := countP_set_of_get? isStarted σ.workers w _ Pc.exited hpc
    simp [isStarted] at hs
    split at h
    · cases h
      exact hC.clean_of_quiet rfl rfl rfl (by simp [setPc, started, hs])
        (clean_set _ w _ hC.clean rfl)
    · exact absurd h (by simp)
  · -- stats <- INC
    rename_i k _ hpc
    have hs := countP_set_of_get? isStarted σ.workers w _ (Pc.request k) hpc
    simp [isStarted] at hs
    obtain ⟨σ₁, hsend, rfl⟩ := Option.map_eq_some'.mp h
    rw [send_eq σ σ₁ INC hsend] at hcap ⊢
    refine hC.clean_of_send INC rfl rfl rfl ?_ hcap (clean_set _ w _ hC.clean rfl)
    have hne : ¬ (INC = DEC) := by decide
    simp only [setPc, started, hs, hne, if_true, if_false]
    omega
  · -- the request cannot be built
    rename_i k _ hpc
    have hs := countP_set_of_get? isStarted σ.workers w _ (Pc.sendDec k Result.err) hpc
    simp [isStarted] at hs
    split at h
    · split at h
      · cases h
        exact hC.clean_of_quiet rfl rfl rfl (by simp [setPc, started, hs])
          (clean_set _ w _ hC.clean rfl)
      · exact absurd h (by simp)
    · exact absurd h (by simp)
  · -- client.Do returns
    rename_i k _ r hpc
    have hs := countP_set_of_get? isStarted σ.workers w _ (Pc.sendDec k r) hpc
    simp [isStarted] at hs
    have hr : pcClean (Pc.sendDec k r) = true := by
      cases r with
      | err => rfl
      | resp v => simpa [actionClean, pcClean] using ha
    split at h
    · split at h
      · exact absurd h (by simp)
      · cases h
        exact hC.clean_of_quiet rfl rfl rfl (by simp [setPc, started, hs])
          (clean_set _ w _ hC.clean hr)
    · exact absurd h (by simp)
  · -- stats <- DEC
    rename_i k r _ hpc
    have hs := countP_set_of_get? isStarted σ.workers w _ (Pc.returnClient k r) hpc
    simp [isStarted] at hs
    have hr : pcClean (Pc.returnClient k r) = true := by
      have := hC.clean _ (List.get?_mem hpc)
      cases r with
      | err => rfl
      | resp v => simpa [pcClean] using this
    obtain ⟨σ₁, hsend, rfl⟩ := Option.map_eq_some'.mp h
    rw [send_eq σ σ₁ DEC hsend] at hcap ⊢
    refine hC.clean_of_send DEC rfl rfl rfl ?_ hcap (clean_set _ w _ hC.clean hr)
    have hne : ¬ (DEC = INC) := by decide
    simp only [setPc, started, hne, if_true, if_false]
    omega
  · -- returnClient
    rename_i k r _ hpc
    have hs := countP_set_of_get? isStarted σ.workers w _ (Pc.handle k r) hpc
    simp [isStarted] at hs
    have hr : pcClean (Pc.handle k r) = true := by
      have := hC.clean _ (List.get?_mem hpc)
      cases r with
      | err => rfl
      | resp v => simpa [pcClean] using this
    split at h
    · cases h
      exact hC.clean_of_quiet rfl rfl rfl (by simp [setPc, started, hs])
        (clean_set _ w _ hC.clean hr)
    · exact absurd h (by simp)
  · -- an error came back
    rename_i k _ hpc
    have hs := fun pc' => countP_set_of_get? isStarted σ.workers w _ pc' hpc
    split at h
    · cases h
      have hs := hs Pc.exited
      simp [isStarted] at hs
      exact hC.clean_of_quiet rfl rfl rfl (by simp [setPc, started, hs])
        (clean_set _ w _ hC.clean rfl)
    · cases h
      have hs := hs (Pc.sendStat k DISCONNECTED)
      simp [isStarted] at hs
      exact hC.clean_of_quiet rfl rfl rfl (by simp [setPc, started, hs])
        (clean_set _ w _ hC.clean rfl)
  · -- a response came back
    rename_i k code _ hpc
    have hs := countP_set_of_get? isStarted σ.workers w _ (Pc.sendStat k code) hpc
    simp [isStarted] at hs
    have hr : pcClean (Pc.sendStat k code) = true := by
      have := hC.clean _ (List.get?_mem hpc)
      simpa [pcClean] using this
    cases h
    exact hC.clean_of_quiet rfl rfl rfl (by simp [setPc, started, hs])
      (clean_set _ w _ hC.clean hr)
  · -- stats <- v
    rename_i k v _ hpc
    obtain ⟨σ₁, hsend, rfl⟩ := Option.map_eq_some'.mp h
    have hs := countP_set_of_get? isStarted σ.workers w _ (nextPc σ₁ k) hpc
    have hns : isStarted (nextPc σ₁ k) = false := by
      unfold nextPc; split <;> rfl
    have hnc : pcClean (nextPc σ₁ k) = true := by
      unfold nextPc; split <;> rfl
    rw [hns] at hs
    simp [isStarted] at hs
    have hv : ¬ v = INC ∧ ¬ v = DEC := by
      have := hC.clean _ (List.get?_mem hpc)
      simpa [pcClean, isControl] using this
    have hσ₁ := send_eq σ σ₁ v hsend
    have hw : σ₁.workers = σ.workers := by rw [hσ₁]
    refine hC.clean_of_send v (by rw [hσ₁]; rfl) (by rw [hσ₁]; rfl) (by rw [hσ₁]; rfl) ?_ hcap ?_
    · simp only [setPc, started, hw, hs, hv.1, hv.2, if_false]
      omega
    · simp only [setPc, hw]
      exact clean_set _ w _ hC.clean hnc
  · exact absurd h (by simp)

theorem handleValue_MaxConcurrent_le {F : Type} (ops : Float64Ops F) (s : Siege F) (v : Int)
    (elapsed : F) (B : Int) (hB : s.MaxConcurrent ≤ B)
    (hinc : v = INC → s.CurrentConcurrent + 1 ≤ B) :
    (handleValue ops s v elapsed).MaxConcurrent ≤ B := by
  unfold handleValue
  by_cases h1 : v = INC
  · simp only [h1, if_true, incrementCurrentRequests]
    have := hinc h1
    split_ifs <;> omega
  · simp only [h1, if_false, decrementCurrentConcurrent]
    split_ifs <;> exact hB

theorem CleanInv.clean_step {F : Type} {ops : Float64Ops F} {s₀ : Siege F} (lib : NetHttp)
    {σ σ' : System F} (a : Action F) (hI : Inv ops s₀ σ) (hC : CleanInv s₀ σ)
    (ha : actionClean a = true) (h : step ops lib σ a = some σ') : CleanInv s₀ σ' := by
  have hI' : Inv ops s₀ σ' := hI.keep_step lib a h
  cases a with
  | cancel =>
    cases h
    exact hC.clean_of_quiet rfl rfl rfl rfl hC.clean
  | tick elapsed =>
    simp only [GoSiege.step] at h
    split at h
    · cases h
      refine hC.clean_of_quiet rfl rfl rfl ?_ ?_
      · simp [started, List.countP_replicate, isStarted]
      · intro pc hpc
        rcases List.mem_append.mp hpc with hm | hm
        · exact hC.clean pc hm
        · rw [(List.mem_replicate.mp hm).2]
          rfl
    · exact absurd h (by simp)
  | controllerExit =>
    simp only [GoSiege.step] at h
    split at h
    · cases h
      exact hC.clean_of_quiet rfl rfl rfl rfl hC.clean
    · exact absurd h (by simp)
  | recv elapsed =>
    simp only [GoSiege.step] at h
    split at h
    · exact absurd h (by simp)
    · split at h
      · rename_i v rest hchan
        cases h
        have hsent : σ.received ++ [v] ++ rest = σ.received ++ σ.counterChan := by
          simp [hchan]
        have hpre := (hC.prefixes (σ.received ++ [v]) (by
          rw [← hsent]; exact List.prefix_append _ _))
        rw [count_INC_concat, count_DEC_concat] at hpre
        refine ⟨hC.clean, ?_, ?_, ?_, ?_⟩
        · show (σ.received ++ [v] ++ rest).count INC
            = (σ.received ++ [v] ++ rest).count DEC + started σ.workers
          rw [hsent]; exact hC.balance
        · show ∀ p, p <+: σ.received ++ [v] ++ rest → _
          rw [hsent]; exact hC.prefixes
        · show (handleValue ops σ.siege v elapsed).CurrentConcurrent
            = ((σ.received ++ [v]).count INC : Int) - ((σ.received ++ [v]).count DEC : Int)
          rw [handleValue_CurrentConcurrent, hC.current, count_INC_concat, count_DEC_concat]
          split_ifs <;> push_cast <;> omega
        · show (handleValue ops σ.siege v elapsed).MaxConcurrent ≤ _
          apply handleValue_MaxConcurrent_le _ _ _ _ _ hC.maximum
          intro hv
          have hne : ¬ (INC = DEC) := by decide
          rw [hC.current]
          simp only [hv, hne, if_true, if_false] at hpre
          omega
      · split at h
        · cases h
          exact hC.clean_of_quiet rfl rfl rfl rfl hC.clean
        · exact absurd h (by simp)
  | closeChan =>
    simp only [GoSiege.step] at h
    split at h
    · cases h
      exact hC.clean_of_quiet rfl rfl rfl rfl hC.clean
    · exact absurd h (by simp)
  | acquire w => exact hC.clean_workerStep lib w _ hI' ha h
  | giveUp w => exact hC.clean_workerStep lib w _ hI' ha h
  | reply w r => exact hC.clean_workerStep lib w _ hI' ha h
  | step w => exact hC.clean_workerStep lib w _ hI' ha h

theorem CleanInv.clean_run {F : Type} {ops : Float64Ops F} {s₀ : Siege F} (lib : NetHttp)
    (as : List (Action F)) {σ σ' : System F} (hI : Inv ops s₀ σ) (hC : CleanInv s₀ σ)
    (ha : ∀ a ∈ as, actionClean a = true) (h : run ops lib σ as = some σ') :
    CleanInv s₀ σ' := by
  induction as generalizing σ with
  | nil => cases h; exact hC
  | cons a as ih =>
    simp only [GoSiege.run] at h
    split at h
    · rename_i σ₁ hstep
      exact ih (hI.keep_step lib a hstep)
        (hC.clean_step lib a hI (ha a (List.mem_cons_self _ _)) hstep)
        (fun b hb => ha b (List.mem_cons_of_mem _ hb)) h
    · exact absurd h (by simp)

/-- Along every run in which no server answers with a status code equal to `INC`
or `DEC`, `CurrentConcurrent` stays
between `0` and `Config.MaxConcurrent`, and so does the maximum concurrency
reported by `GetStats`; in every prefix of the stream sent on `counterChan` the
`INC` values exceed the `DEC` values by at least `0` and at most
`Config.MaxConcurrent`. -/
theorem concurrency_bounds_of_clean {F : Type} (ops : Float64Ops F) (lib : NetHttp)
    (config : SiegeConfig) (draw : Nat → Nat) (σ₀ σ : System F) (as : List (Action F))
    (h0 : NewSiege ops config draw = some σ₀) (hrun : run ops lib σ₀ as = some σ)
    (hclean : ∀ a ∈ as, actionClean a = true) :
    0 ≤ σ.siege.CurrentConcurrent ∧ σ.siege.CurrentConcurrent ≤ config.MaxConcurrent ∧
    (GetStats σ.siege).2.2.1 ≤ config.MaxConcurrent ∧
    ∀ p, p <+: σ.received ++ σ.counterChan →
      (p.count DEC : Int) ≤ p.count INC ∧ (p.count INC : Int) - p.count DEC ≤ config.MaxConcurrent := by
  obtain ⟨expanded, hσ₀, hI⟩ := Inv.at_NewSiege ops config draw σ₀ h0
  have hnn : 0 ≤ config.MaxConcurrent := by
    by_contra hneg
    simp [NewSiege, not_le.mp hneg] at h0
  have hcap : ((newCounters ops config expanded).Config.MaxConcurrent.toNat : Int)
      = config.MaxConcurrent := Int.toNat_of_nonneg hnn
  have hC₀ : CleanInv (newCounters ops config expanded) σ₀ := by
    unfold GoSiege.NewSiege at h0
    split at h0
    · exact absurd h0 (by simp)
    · split at h0
      · exact absurd h0 (by simp)
      · cases h0
        refine ⟨by simp, by simp [started], ?_, rfl, ?_⟩
        · intro p hp
          have : p = [] := by simpa using hp
          subst this
          simp
        · show (0 : Int) ≤ _
          exact Int.ofNat_nonneg _
  have hC := hC₀.clean_run lib as hI hclean hrun
  have hpre := hC.prefixes σ.received (List.prefix_append _ _)
  have hcur := hC.current
  have hmax := hC.maximum
  refine ⟨by omega, by omega, by simpa [GetStats, ← hcap] using hmax, ?_⟩
  intro p hp
  have := hC.prefixes p hp
  omega

/-! ## The engine: properties of the event stream and of the pool -/

/-- C9: in every state the engine reaches, whatever the interleaving of Workers,
controller and aggregator, `resp2xx + resp4xx + resp5xx` is at most the number
of `DEC` values the aggregator has processed; and the same bound holds for the
counters obtained by processing, from the zero counters, any prefix of the
stream the Workers have sent. -/
theorem buckets_le_finished {F : Type} (ops : Float64Ops F) (lib : NetHttp)
    (config : SiegeConfig) (σ : System F) (h : Reachable ops lib config σ) :
    σ.siege.resp2xx + σ.siege.resp4xx + σ.siege.resp5xx ≤ (σ.received.count DEC : Int) ∧
    ∀ (expanded : List SiegeUrl) (events : List (Int × F)),
      events.map Prod.fst <+: σ.received ++ σ.counterChan →
      (processAll ops (newCounters ops config expanded) events).resp2xx
        + (processAll ops (newCounters ops config expanded) events).resp4xx
        + (processAll ops (newCounters ops config expanded) events).resp5xx
        ≤ ((events.map Prod.fst).count DEC : Int) := by
  obtain ⟨expanded₀, hI⟩ := h.inv
  have hzero : ∀ expanded : List SiegeUrl,
      (newCounters ops config expanded).resp2xx + (newCounters ops config expanded).resp4xx
        + (newCounters ops config expanded).resp5xx = 0 := fun _ => rfl
  constructor
  · obtain ⟨events, hev, hsiege⟩ := hI.counters
    rw [hsiege, processAll_buckets, hzero, hev]
    have := hI.good σ.received (List.prefix_append _ _)
    omega
  · intro expanded events hp
    rw [processAll_buckets, hzero]
    have := hI.good _ hp
    omega

/-- Witness of C9: the state after one request answered with status 200. -/
theorem buckets_le_finished_witness :
    Reachable ratOps plainHttp oneClientConfig oneClientAfter200 ∧
    oneClientAfter200.siege.resp2xx + oneClientAfter200.siege.resp4xx
        + oneClientAfter200.siege.resp5xx ≤ (oneClientAfter200.received.count DEC : Int) :=
  have hreach : Reachable ratOps plainHttp oneClientConfig oneClientAfter200 :=
    ⟨sampleDraw, oneClientStart, Action.tick 1000000000 :: oneRequest 200 ++ receive 3 1,
      rfl, by with_unfolding_all rfl⟩
  ⟨hreach, (buckets_le_finished ratOps plainHttp oneClientConfig oneClientAfter200 hreach).1⟩

/-- The connection pool: in every state the engine reaches, each client is
either in the pool or held by a worker between its `getClient` and its
`returnClient`, so at most `Config.MaxConcurrent` clients are borrowed. -/
theorem pool_balance {F : Type} (ops : Float64Ops F) (lib : NetHttp) (config : SiegeConfig)
    (σ : System F) (h : Reachable ops lib config σ) :
    σ.clientPool + borrowed σ.workers = config.MaxConcurrent.toNat ∧
    (borrowed σ.workers : Int) ≤ config.MaxConcurrent := by
  obtain ⟨expanded, hI⟩ := h.inv
  have hp : σ.clientPool + borrowed σ.workers = config.MaxConcurrent.toNat := hI.pool
  refine ⟨hp, ?_⟩
  have : (config.MaxConcurrent.toNat : Int) ≤ config.MaxConcurrent ∨ config.MaxConcurrent < 0 := by
    omega
  obtain ⟨draw, σ₀, as, h0, _⟩ := h
  have hnn : ¬ config.MaxConcurrent < 0 := by
    intro hneg
    simp [NewSiege, hneg] at h0
  omega

/-- C6, the code when a server answers with status code 2: the Worker sends
`INC`, `DEC` and then the status code, the aggregator takes the last for a second
`DEC`, and `CurrentConcurrent` is `-1`. -/
theorem CurrentConcurrent_negative :
    (runFrom oneClientConfig (Action.tick 1000000000 :: oneRequest 2 ++ receive 3 1)).map
      (fun σ => (σ.received, σ.siege.CurrentConcurrent)) = some ([1, 2, 2], -1) := by
  decide

/-- C10, the code when a server answers with status code 1: with a pool of one
client and a single Worker issuing two requests, the aggregator takes each
status code for an `INC`, and `GetStats` reports a maximum concurrency of 2
for `Config.MaxConcurrent = 1`. -/
theorem GetStats_exceeds_MaxConcurrent :
    (runFrom oneClientConfig
        (Action.tick 1000000000 :: oneRequest 1 ++ oneRequest 1 ++ receive 4 1)).map
      (fun σ => (σ.received, (GetStats σ.siege).2.2.1)) = some ([1, 2, 1, 1], 2) ∧
    oneClientConfig.MaxConcurrent = 1 := by
  decide

/-! ## The request built by `makeCall` -/

theorem NewRequest_body (lib : NetHttp) (method url : String) (body : Body) (req : Request)
    (h : NewRequest lib method url body = some req) : req.Body = body := by
  unfold NewRequest at h
  simp only at h
  cases hv : lib.validMethod (if method = "" then "GET" else method) with
  | false => simp [hv] at h
  | true =>
    cases hu : lib.parseURL url with
    | none => simp [hv, hu] at h
    | some u =>
      simp [hv, hu] at h
      rw [← h]

/-- Whatever the template, a request that `makeCall` hands to `client.Do` has an
empty body. -/
theorem makeCallRequest_body (lib : NetHttp) (url : SiegeUrl) (req : Request)
    (h : makeCallRequest lib url = some req) : req.Body.content = "" := by
  unfold makeCallRequest at h
  split at h
  · exact absurd h (by simp)
  · rename_i req₀ hnew
    have hfold : ∀ (hs : List (String × String)) (r : Request),
        (hs.foldl (fun req kv => headerSet lib req kv.1 kv.2) r).Body = r.Body := by
      intro hs
      induction hs with
      | nil => intro r; rfl
      | cons kv hs ih => intro r; rw [List.foldl_cons, ih]; rfl
    have hbody : req₀.Body = Body.nil := NewRequest_body lib _ _ _ _ hnew
    split at h
    · cases h; rfl
    · cases h
      rw [hfold, hbody]
      rfl

/-- C7, the code on a `POST` template with body `hello`: the request carries the
method, the URL and the header of the template, and `http.NoBody`, whose
content is empty. -/
theorem makeCallRequest_post :
    makeCallRequest plainHttp postHello
      = some { Method := "POST", URL := "http://x/a",
               Header := [("Content-Type", "text/plain")], Body := Body.NoBody } ∧
    Body.NoBody.content = "" ∧ postHello.Body = "hello" := by
  decide

end GoSiege
